import Mathlib

/-!
Verification of the axis/bounds/tick computation engine of the `neilplot`
plotting library.  The Rust source (`src/bounds.rs`, `src/lib.rs`) is shallowly
embedded: `f64` values become real numbers, iterators become explicit state
machines with a `next` step function, and code that panics is embedded as an
`Option`-returning function where `none` marks the panic.
-/

namespace Neilplot

open scoped Classical

/-- Embedding of `Range` from `src/bounds.rs`: a pair of endpoints. -/
structure Range where
  min : ℝ
  max : ℝ

/-- `Range::size`: `max - min`. -/
def Range.size (r : Range) : ℝ := r.max - r.min

/-- Rust `f64::signum` (for non-NaN inputs): `1.0` for non-negative values
(including zero, whose sign bit is clear for the literal `0.0`), `-1.0` for
negative values. -/
noncomputable def rustSignum (x : ℝ) : ℝ := if x < 0 then -1 else 1

/-- `Range::expand`: moves each endpoint outward by `amount`, oriented by the
sign of the size. -/
noncomputable def Range.expand (r : Range) (amount : ℝ) : Range :=
  { min := r.min - amount * rustSignum r.size
    max := r.max + amount * rustSignum r.size }

/-- `Range::shrink`: `expand(-amount)`. -/
noncomputable def Range.shrink (r : Range) (amount : ℝ) : Range := r.expand (-amount)

/-- `Range::shrink_by`: `shrink(size * fract)`. -/
noncomputable def Range.shrink_by (r : Range) (fract : ℝ) : Range := r.shrink (r.size * fract)

/-- `Range::expand_by`: `expand(size * fract)`. -/
noncomputable def Range.expand_by (r : Range) (fract : ℝ) : Range := r.expand (r.size * fract)

/-- `Range::union` from `src/bounds.rs`: a zero-size operand is ignored in
favour of the other; otherwise take the componentwise min/max envelope. -/
noncomputable def Range.union (r : Range) (other : Range) : Range :=
  if r.size = 0 then other
  else if other.size = 0 then r
  else { min := Min.min r.min other.min, max := Max.max r.max other.max }

/-- Embedding of `Bounds` from `src/bounds.rs`: an x range and a y range. -/
structure Bounds where
  x : Range
  y : Range

/-- `Bounds::shrink`: shrink both ranges by the absolute amount. -/
noncomputable def Bounds.shrink (b : Bounds) (amount : ℝ) : Bounds :=
  { x := b.x.shrink amount, y := b.y.shrink amount }

/-- `Bounds::shrink_by` as written in the source: the x range is shrunk by the
fraction (`shrink_by`), the y range by the absolute amount (`shrink`). -/
noncomputable def Bounds.shrink_by (b : Bounds) (fract : ℝ) : Bounds :=
  { x := b.x.shrink_by fract, y := b.y.shrink fract }

/-- `Bounds::union`: componentwise `Range::union`. -/
noncomputable def Bounds.union (b : Bounds) (other : Bounds) : Bounds :=
  { x := b.x.union other.x, y := b.y.union other.y }

/-- Embedding of `Scale` from `src/lib.rs`. -/
inductive Scale where
  | Linear
  | Logarithmic
  deriving DecidableEq

/-- Embedding of `RangeUnit` from `src/bounds.rs`. -/
inductive RangeUnit where
  | Absolute
  | Duration
  | Date
  deriving DecidableEq

/-- Embedding of `DataRange` from `src/bounds.rs`.  A `Categorical` range
borrows a polars `Column` of labels; only the label values and the column
length are ever consumed, so the column is embedded as a list of strings. -/
inductive DataRange where
  | Continuous (range : Range) (unit : RangeUnit) (margin_min : Bool) (margin_max : Bool)
  | Categorical (labels : List String)

/-- Embedding of `DataBounds` from `src/bounds.rs`. -/
structure DataBounds where
  x : DataRange
  y : DataRange

/-- Embedding of `Ticks` from `src/lib.rs`. -/
inductive Ticks where
  | Auto
  | Fixed (count : ℕ)

/-- Embedding of `Axis` from `src/lib.rs`. -/
structure Axis where
  title : Option String
  scale : Scale
  min : Option ℝ
  max : Option ℝ
  margin : ℝ
  ticks : Ticks

/-- `Axis::default()`: linear scale, no overrides, margin `0.1`, auto ticks. -/
noncomputable def Axis.default : Axis :=
  { title := none, scale := .Linear, min := none, max := none, margin := 1 / 10, ticks := .Auto }

/-- `Axis::pretty_range` from `src/lib.rs`.  For a continuous range the code
mutates a local copy `r`: it first widens `r.min` when `margin_min` is set,
then widens `r.max` when `margin_max` is set — the second step reads the
already-mutated `r` — and finally the explicit `axis.min`/`axis.max`
overrides replace the endpoints.  For a categorical range the result is
`[-0.5, len - 0.5]` unconditionally. -/
noncomputable def Axis.pretty_range (a : Axis) (dr : DataRange) : Range :=
  match dr with
  | .Continuous range _ margin_min margin_max =>
    let r1 : Range :=
      if margin_min then
        match a.scale with
        | .Linear => { range with min := range.min - |range.size * a.margin| }
        | .Logarithmic =>
          { range with
            min := range.min -
              (10 : ℝ) ^ |(Real.logb 10 range.max - Real.logb 10 range.min) * a.margin| }
      else range
    let r2 : Range :=
      if margin_max then
        match a.scale with
        | .Linear => { r1 with max := r1.max + |r1.size * a.margin| }
        | .Logarithmic =>
          { r1 with
            max := r1.max +
              (10 : ℝ) ^ |(Real.logb 10 r1.max - Real.logb 10 r1.min) * a.margin| }
      else r1
    { min := a.min.getD r2.min, max := a.max.getD r2.max }
  | .Categorical labels => { min := -0.5, max := (labels.length : ℝ) - 0.5 }

/-- The margin amount `pretty_range` adds on one side of a continuous range
`r`: `|size * margin|` for a linear scale, `10 ^ |(log10 max - log10 min) *
margin|` for a logarithmic scale. -/
noncomputable def marginAmount (s : Scale) (m : ℝ) (r : Range) : ℝ :=
  match s with
  | .Linear => |r.size * m|
  | .Logarithmic => (10 : ℝ) ^ |(Real.logb 10 r.max - Real.logb 10 r.min) * m|

/-- `Plot::union_range` from `src/lib.rs`.  Two continuous ranges are unioned
componentwise (range union, left unit, OR of the margin flags); any other pair
panics ("Cannot union non-continuous ranges"), embedded as `none`. -/
noncomputable def union_range : DataRange → DataRange → Option DataRange
  | .Continuous range_a unit_a min_a max_a, .Continuous range_b _ min_b max_b =>
    some (.Continuous (range_a.union range_b) unit_a (min_a || min_b) (max_a || max_b))
  | _, _ => none

/-- `Plot::union_bounds`: componentwise `union_range`; a panic in either
component propagates. -/
noncomputable def union_bounds (a : DataBounds) (b : DataBounds) : Option DataBounds :=
  match union_range a.x b.x, union_range a.y b.y with
  | some x, some y => some { x := x, y := y }
  | _, _ => none

/-- The fallback `DataBounds` built in `Plot::bounds` when no series
contributes: both axes continuous over `[0, 1]`, absolute unit, margins off. -/
def defaultDataBounds : DataBounds :=
  { x := .Continuous ⟨0, 1⟩ .Absolute false false,
    y := .Continuous ⟨0, 1⟩ .Absolute false false }

/-- The fold inside `Plot::bounds`: each list entry is one series'
`data_bounds()` result after `log_err` (`none` when the series errored and is
skipped).  The accumulator is the union so far; a panic inside `union_bounds`
propagates as the outer `none`. -/
noncomputable def plotBoundsAux : List (Option DataBounds) → Option DataBounds →
    Option (Option DataBounds)
  | [], acc => some acc
  | none :: rest, acc => plotBoundsAux rest acc
  | some b :: rest, acc =>
    match acc with
    | none => plotBoundsAux rest (some b)
    | some a =>
      match union_bounds a b with
      | none => none
      | some u => plotBoundsAux rest (some u)

/-- `Plot::bounds` from `src/lib.rs`, as a function of the per-series
`data_bounds()` results: fold the successful bounds with `union_bounds` and
fall back to `defaultDataBounds` when none succeeded. -/
noncomputable def plotBounds (axes : List (Option DataBounds)) : Option DataBounds :=
  (plotBoundsAux axes none).map (fun r => r.getD defaultDataBounds)

/-- Rust `f64::round` (for non-NaN inputs): round half away from zero. -/
noncomputable def rustRound (x : ℝ) : ℤ := if 0 ≤ x then ⌊x + 1 / 2⌋ else ⌈x - 1 / 2⌉

/-- Rounding a value to `p` decimal places the way `NiceTicksIter::next` does:
`round(x * 10^p) / 10^p`. -/
noncomputable def roundTo (p : ℕ) (x : ℝ) : ℝ :=
  (rustRound (x * (10 : ℝ) ^ p) : ℝ) / (10 : ℝ) ^ p

/-- Embedding of `NiceTicksIter` from `src/bounds.rs`. -/
structure NiceTicksIter where
  current : ℝ
  step : ℝ
  hi : ℝ
  precision : ℕ

/-- `Range::nice_ticks` from `src/bounds.rs`: choose a "nice" step
`nice_base * 10^k` and iterate from `floor(min/step)*step` to
`ceil(max/step)*step`. -/
noncomputable def Range.nice_ticks (r : Range) (count : ℕ) : NiceTicksIter :=
  let step := (r.max - r.min) / (count : ℝ)
  let k : ℤ := ⌊Real.logb 10 step⌋
  let base := step / (10 : ℝ) ^ k
  let nice_base : ℝ :=
    if base < 1 then 1
    else if base < 2 then 2
    else if base < 2.5 then 2.5
    else if base < 5 then 5
    else 10
  let step2 := nice_base * (10 : ℝ) ^ k
  let lo := (⌊r.min / step2⌋ : ℝ) * step2
  let hi := (⌈r.max / step2⌉ : ℝ) * step2
  let precision : ℕ := (Max.max (-k + 4) 0).toNat
  { current := lo, step := step2, hi := hi, precision := precision }

/-- `Iterator::next` for `NiceTicksIter`: emit the rounded current value while
`current < hi + step * 0.5`, advancing by `step`. -/
noncomputable def NiceTicksIter.next (it : NiceTicksIter) : Option (ℝ × NiceTicksIter) :=
  if it.current < it.hi + it.step * 0.5 then
    some ((rustRound (it.current * (10 : ℝ) ^ it.precision) : ℝ) / (10 : ℝ) ^ it.precision,
      { it with current := it.current + it.step })
  else none

/-- The `n`-th value emitted by a `NiceTicksIter` (counting from 0), or `none`
when the iterator is exhausted before that point. -/
noncomputable def NiceTicksIter.emit : NiceTicksIter → ℕ → Option ℝ
  | it, 0 => it.next.map Prod.fst
  | it, n + 1 =>
    match it.next with
    | none => none
    | some p => p.2.emit n

/-- The raw step `size / count` of the nice-tick computation. -/
noncomputable def niceStep0 (r : Range) (c : ℕ) : ℝ := (r.max - r.min) / (c : ℝ)

/-- The decade exponent `k = floor(log10(size / count))`. -/
noncomputable def niceK (r : Range) (c : ℕ) : ℤ := ⌊Real.logb 10 (niceStep0 r c)⌋

/-- The normalized base `(size / count) / 10^k`. -/
noncomputable def niceBaseRaw (r : Range) (c : ℕ) : ℝ := niceStep0 r c / (10 : ℝ) ^ niceK r c

/-- The base snapped to the canonical multipliers 1, 2, 2.5, 5, 10. -/
noncomputable def niceBase (r : Range) (c : ℕ) : ℝ :=
  if niceBaseRaw r c < 1 then 1
  else if niceBaseRaw r c < 2 then 2
  else if niceBaseRaw r c < 2.5 then 2.5
  else if niceBaseRaw r c < 5 then 5
  else 10

/-- The final nice step `nice_base * 10^k`. -/
noncomputable def niceStep (r : Range) (c : ℕ) : ℝ := niceBase r c * (10 : ℝ) ^ niceK r c

/-- The lower tick bound `floor(min / step) * step`. -/
noncomputable def niceLo (r : Range) (c : ℕ) : ℝ :=
  (⌊r.min / niceStep r c⌋ : ℝ) * niceStep r c

/-- The upper tick bound `ceil(max / step) * step`. -/
noncomputable def niceHi (r : Range) (c : ℕ) : ℝ :=
  (⌈r.max / niceStep r c⌉ : ℝ) * niceStep r c

/-- The reported decimal precision `max(0, -k + 4)`. -/
noncomputable def nicePrec (r : Range) (c : ℕ) : ℕ := (Max.max (-(niceK r c) + 4) 0).toNat

/-- Embedding of `FixedTicksIter` from `src/lib.rs`. -/
structure FixedTicksIter where
  count : ℕ
  current : ℕ
  start : ℝ
  step : ℝ

/-- `FixedTicksIter::new`: `count` evenly spaced ticks over `range`, with step
`size / (count.saturating_sub 1)` (natural subtraction, like Rust's
`saturating_sub`). -/
noncomputable def FixedTicksIter.new (range : Range) (count : ℕ) : FixedTicksIter :=
  { count := count, current := 0, start := range.min,
    step := range.size / ((count - 1 : ℕ) : ℝ) }

/-- `Iterator::next` for `FixedTicksIter`. -/
noncomputable def FixedTicksIter.next (it : FixedTicksIter) : Option (ℝ × FixedTicksIter) :=
  if it.count ≤ it.current then none
  else some (it.start + (it.current : ℝ) * it.step, { it with current := it.current + 1 })

/-- Run a `FixedTicksIter` for at most `fuel` steps, collecting the emitted
values. -/
noncomputable def fixedGo : ℕ → FixedTicksIter → List ℝ
  | 0, _ => []
  | fuel + 1, it =>
    match it.next with
    | none => []
    | some p => p.1 :: fixedGo fuel p.2

/-- All values a `FixedTicksIter` emits: `count - current` bounds the number of
iterations, so this is the full, finite output of the iterator. -/
noncomputable def FixedTicksIter.toList (it : FixedTicksIter) : List ℝ :=
  fixedGo (it.count - it.current) it

/-- Embedding of `TicksIter` from `src/lib.rs` (the `Labeled` arm carries the
borrowed label column and the iterator position). -/
inductive TicksIter where
  | Auto (iter : NiceTicksIter) (scale : Scale) (unit : RangeUnit)
  | Fixed (iter : FixedTicksIter)
  | Labeled (labels : List String) (current : ℕ)

/-- `Axis::iter_ticks` from `src/lib.rs`: `Auto` ticks use the (log-scaled)
data range and `nice_ticks`; `Fixed` ticks use a `FixedTicksIter` over the
pretty range. -/
noncomputable def Axis.iter_ticks (a : Axis) (range : DataRange) (nice_ticks : ℕ) : TicksIter :=
  match a.ticks with
  | .Auto =>
    match range with
    | .Categorical labels => .Labeled labels 0
    | .Continuous rg u _ _ =>
      let rg2 :=
        match a.scale with
        | .Linear => rg
        | .Logarithmic => Range.mk (Real.logb 10 rg.min) (Real.logb 10 rg.max)
      .Auto (rg2.nice_ticks nice_ticks) a.scale u
  | .Fixed count => .Fixed (FixedTicksIter.new (a.pretty_range range) count)

/-- Modelled from the spec: `Scale::scale_value` is referenced from
`viewport_transform` in `src/lib.rs` but its definition is not among the
available sources; the spec (section on `viewport_transform`) says the axis
scale function is the identity for Linear and log10 for Logarithmic. -/
noncomputable def Scale.scale_value : Scale → ℝ → ℝ
  | .Linear, v => v
  | .Logarithmic, v => Real.logb 10 v

/-- Modelled from the spec: `Range::map` is used in `viewport_transform` to
apply the scale function "to every Range endpoint". -/
noncomputable def Range.map (r : Range) (f : ℝ → ℝ) : Range := { min := f r.min, max := f r.max }

/-- Embedding of the kurbo affine transform built by `Bounds::transform_to`:
`Affine::new([a, b, c, d, e, f])` maps `(x, y)` to `(a*x + c*y + e,
b*x + d*y + f)`; `transform_to` always sets `b = c = 0`. -/
structure Affine where
  c0 : ℝ
  c1 : ℝ
  c2 : ℝ
  c3 : ℝ
  c4 : ℝ
  c5 : ℝ

/-- The x component of applying the affine to a point with `y = 0` (the
per-axis action `x ↦ c0 * x + c4`). -/
noncomputable def Affine.applyX (t : Affine) (x : ℝ) : ℝ := t.c0 * x + t.c4

/-- The x component of the inverse affine (for `c2 = 0`): `x ↦ (x - c4) / c0`. -/
noncomputable def Affine.invApplyX (t : Affine) (x : ℝ) : ℝ := (x - t.c4) / t.c0

/-- `Bounds::transform_to` from `src/bounds.rs`: per-axis scale
`viewport.size / self.size` and translate `viewport.min - self.min * scale`. -/
noncomputable def Bounds.transform_to (b : Bounds) (viewport : Bounds) : Affine :=
  let scale_x := viewport.x.size / b.x.size
  let scale_y := viewport.y.size / b.y.size
  let translate_x := viewport.x.min - b.x.min * scale_x
  let translate_y := viewport.y.min - b.y.min * scale_y
  { c0 := scale_x, c1 := 0, c2 := 0, c3 := scale_y, c4 := translate_x, c5 := translate_y }

/-- Embedding of `ViewportTransform` (struct declared outside the available
sources; its construction in `src/lib.rs` fixes the fields: the affine and the
two axis scales). -/
structure ViewportTransform where
  affine : Affine
  x : Scale
  y : Scale

/-- The axis configuration of a `Plot` (the remaining `Plot` fields — border,
grid, title, series — play no part in the transform computation). -/
structure Plot where
  x : Axis
  y : Axis

/-- `Plot::pretty_bounds` from `src/lib.rs`. -/
noncomputable def Plot.pretty_bounds (p : Plot) (db : DataBounds) : Bounds :=
  { x := p.x.pretty_range db.x, y := p.y.pretty_range db.y }

/-- `Plot::viewport_transform` from `src/lib.rs`: scale the pretty bounds with
each axis's scale function, then derive the affine onto the viewport. -/
noncomputable def Plot.viewport_transform (p : Plot) (db : DataBounds) (viewport : Bounds) :
    ViewportTransform :=
  let pretty := p.pretty_bounds db
  let fromB := Bounds.mk (pretty.x.map (fun v => p.x.scale.scale_value v))
    (pretty.y.map (fun v => p.y.scale.scale_value v))
  { affine := fromB.transform_to viewport, x := p.x.scale, y := p.y.scale }

end Neilplot

namespace Neilplot

/-- Claim C7: `Range::union` with a zero-size operand returns the other operand
unchanged, and when both operands have nonzero size the union is commutative
and equals the min/max envelope. -/
theorem union_zero_identity_and_comm (a b : Range) :
    (a.size = 0 → a.union b = b) ∧
    (a.size ≠ 0 → b.size = 0 → a.union b = a) ∧
    (a.size ≠ 0 → b.size ≠ 0 →
      a.union b = { min := Min.min a.min b.min, max := Max.max a.max b.max } ∧
      a.union b = b.union a) := by
  refine ⟨?_, ?_, ?_⟩
  · intro ha
    simp [Range.union, ha]
  · intro ha hb
    simp [Range.union, ha, hb]
  · intro ha hb
    constructor
    · simp [Range.union, ha, hb]
    · simp [Range.union, ha, hb, min_comm, max_comm]

/-- Witness for C7: concrete instances of all three branches. -/
theorem union_zero_identity_and_comm_witness :
    (Range.union ⟨0, 0⟩ ⟨2, 5⟩ = ⟨2, 5⟩) ∧
    (Range.union ⟨2, 5⟩ ⟨1, 1⟩ = ⟨2, 5⟩) ∧
    (Range.union ⟨0, 1⟩ ⟨2, 5⟩ = ⟨0, 5⟩ ∧
      Range.union ⟨0, 1⟩ ⟨2, 5⟩ = Range.union ⟨2, 5⟩ ⟨0, 1⟩) := by
  have h1 := (union_zero_identity_and_comm ⟨0, 0⟩ ⟨2, 5⟩).1 (by norm_num [Range.size])
  have h2 := (union_zero_identity_and_comm ⟨2, 5⟩ ⟨1, 1⟩).2.1
    (by norm_num [Range.size]) (by norm_num [Range.size])
  have h3 := (union_zero_identity_and_comm ⟨0, 1⟩ ⟨2, 5⟩).2.2
    (by norm_num [Range.size]) (by norm_num [Range.size])
  refine ⟨h1, h2, ?_, h3.2⟩
  rw [h3.1]
  norm_num

/-- Claim C10: `Bounds::shrink_by` shrinks the x range by the fraction of its
own size, but shrinks the y range by the absolute amount `fract`. -/
theorem shrink_by_asymmetry (b : Bounds) (fract : ℝ) :
    b.shrink_by fract = { x := b.x.shrink (b.x.size * fract), y := b.y.shrink fract } := rfl

/-- Claim C5: for a categorical range over `n` labels, `pretty_range` is
`[-0.5, n - 0.5]` for every axis configuration; in particular four categories
give `[-0.5, 3.5]`. -/
theorem pretty_range_categorical (a : Axis) (labels : List String) :
    a.pretty_range (.Categorical labels) = { min := -0.5, max := (labels.length : ℝ) - 0.5 } ∧
    a.pretty_range (.Categorical ["a", "b", "c", "d"]) = { min := -0.5, max := 3.5 } := by
  refine ⟨rfl, ?_⟩
  show Range.mk (-0.5) ((4 : ℕ) - 0.5 : ℝ) = Range.mk (-0.5) 3.5
  norm_num

/-- Counterexample to claim C4: the categorical arm of `pretty_range` ignores
the explicit `axis.min` override — here `axis.min = some 42` but the computed
minimum is `-0.5`. -/
theorem override_ignored_for_categorical :
    (Axis.mk none .Linear (some 42) none (1 / 10) .Auto).min = some 42 ∧
    ((Axis.mk none .Linear (some 42) none (1 / 10) .Auto).pretty_range
        (.Categorical ["a"])).min = -0.5 ∧
    (-0.5 : ℝ) ≠ 42 := by
  refine ⟨rfl, rfl, by norm_num⟩

/-- Claim C4 (amended: continuous ranges only): for a continuous data range the
explicit `axis.min`/`axis.max` override always replaces the computed, margined
endpoint, for every scale and every margin-flag configuration. -/
theorem override_wins_for_continuous (a : Axis) (range : Range) (u : RangeUnit)
    (mmin mmax : Bool) :
    (∀ m, a.min = some m → (a.pretty_range (.Continuous range u mmin mmax)).min = m) ∧
    (∀ M, a.max = some M → (a.pretty_range (.Continuous range u mmin mmax)).max = M) := by
  obtain ⟨t, s, mn, mx, mg, tk⟩ := a
  constructor <;> intro v hv <;> cases hv <;> cases s <;> cases mmin <;> cases mmax <;> rfl

/-- Witness for C4: an axis with `min = some 3`, `max = some 7` forces those
endpoints on a margined continuous range. -/
theorem override_wins_for_continuous_witness :
    (Axis.mk none .Linear (some 3) (some 7) (1 / 10) .Auto).min = some 3 ∧
    ((Axis.mk none .Linear (some 3) (some 7) (1 / 10) .Auto).pretty_range
        (.Continuous ⟨0, 1⟩ .Absolute true true)).min = 3 ∧
    ((Axis.mk none .Linear (some 3) (some 7) (1 / 10) .Auto).pretty_range
        (.Continuous ⟨0, 1⟩ .Absolute true true)).max = 7 :=
  ⟨rfl,
   (override_wins_for_continuous (Axis.mk none .Linear (some 3) (some 7) (1 / 10) .Auto)
      ⟨0, 1⟩ .Absolute true true).1 3 rfl,
   (override_wins_for_continuous (Axis.mk none .Linear (some 3) (some 7) (1 / 10) .Auto)
      ⟨0, 1⟩ .Absolute true true).2 7 rfl⟩

/-- Counterexample to claim C2: with both margin flags set on a linear axis
with margin `0.1` and input range `[0, 10]`, the max-side margin is computed
from the already-min-margined range `[-1, 10]` (size `11`), giving max
`10 + 1.1 = 11.1`; the claim's "margin amount of the input range" predicts
`10 + 1 = 11`. -/
theorem margin_uses_updated_range :
    (Axis.mk none .Linear none none (1 / 10) .Auto).pretty_range
        (.Continuous ⟨0, 10⟩ .Absolute true true) = ⟨-1, 111 / 10⟩ ∧
    Range.mk (-1) (111 / 10) ≠
      Range.mk (0 - |Range.size ⟨0, 10⟩ * (1 / 10)|) (10 + |Range.size ⟨0, 10⟩ * (1 / 10)|) := by
  constructor
  · show Range.mk (0 - |((10 : ℝ) - 0) * (1 / 10)|)
        (10 + |(10 - (0 - |((10 : ℝ) - 0) * (1 / 10)|)) * (1 / 10)|) = ⟨-1, 111 / 10⟩
    norm_num [abs_of_nonneg]
  · intro h
    have := congrArg Range.max h
    simp [Range.size] at this
    norm_num at this

/-- Claim C3: `union_range` unions two continuous ranges componentwise (range
union, left operand's unit, OR of the margin flags per side), panics (embedded
as `none`) whenever either operand is categorical, and `union_bounds` applies
the rule componentwise on x and y. -/
theorem union_range_rule (range_a : Range) (unit_a : RangeUnit) (min_a max_a : Bool)
    (range_b : Range) (unit_b : RangeUnit) (min_b max_b : Bool)
    (la : List String) (a b : DataRange) (A B : DataBounds) :
    union_range (.Continuous range_a unit_a min_a max_a)
        (.Continuous range_b unit_b min_b max_b) =
      some (.Continuous (range_a.union range_b) unit_a (min_a || min_b) (max_a || max_b)) ∧
    union_range (.Categorical la) b = none ∧
    union_range a (.Categorical la) = none ∧
    union_bounds A B = (union_range A.x B.x).bind
      (fun x => (union_range A.y B.y).map (fun y => DataBounds.mk x y)) := by
  refine ⟨rfl, ?_, ?_, ?_⟩
  · cases b <;> rfl
  · cases a <;> rfl
  · cases hx : union_range A.x B.x <;> cases hy : union_range A.y B.y <;>
      simp [union_bounds, hx, hy]

/-- Claim C2 (amended): margins are applied only on flagged sides; the min-side
amount is `marginAmount` of the input range, the max-side amount is
`marginAmount` of the range after the min-side margin has been applied (the
source mutates `r.min` before computing the max-side size/log-span), and the
explicit overrides then replace the endpoints. -/
theorem margin_application (a : Axis) (range : Range) (u : RangeUnit) (mmin mmax : Bool) :
    a.pretty_range (.Continuous range u mmin mmax) =
      (let r1 := if mmin then Range.mk (range.min - marginAmount a.scale a.margin range)
                   range.max
                 else range
       let r2 := if mmax then Range.mk r1.min (r1.max + marginAmount a.scale a.margin r1)
                 else r1
       Range.mk (a.min.getD r2.min) (a.max.getD r2.max)) := by
  obtain ⟨t, s, mn, mx, mg, tk⟩ := a
  cases s <;> cases mmin <;> cases mmax <;> rfl

/-- Skipping errored series: the fold over `data_bounds()` results ignores the
`none` entries entirely. -/
theorem plotBoundsAux_skip (l : List (Option DataBounds)) (acc : Option DataBounds) :
    plotBoundsAux l acc = plotBoundsAux ((l.filterMap id).map some) acc := by
  induction l generalizing acc with
  | nil => rfl
  | cons hd tl ih =>
    cases hd with
    | none => simpa [plotBoundsAux] using ih acc
    | some b =>
      cases acc with
      | none => simpa [plotBoundsAux] using ih (some b)
      | some a =>
        cases hub : union_bounds a b with
        | none => simp [plotBoundsAux, hub]
        | some u => simpa [plotBoundsAux, hub] using ih (some u)

/-- Folding a list of successful bounds starting from `a` is `foldlM` with
`union_bounds` (in the `Option` monad, so a panic propagates). -/
theorem plotBoundsAux_somes (bs : List DataBounds) (a : DataBounds) :
    plotBoundsAux (bs.map some) (some a) = (bs.foldlM union_bounds a).map some := by
  induction bs generalizing a with
  | nil => rfl
  | cons b tl ih =>
    cases hub : union_bounds a b with
    | none => simp [plotBoundsAux, hub]
    | some u => simp [plotBoundsAux, hub, ih]

/-- Claim C8: `Plot::bounds` skips every series whose `data_bounds()` failed,
unions the remaining series' bounds with `union_bounds`, and falls back to the
default `[0,1]×[0,1]` continuous/absolute/no-margin bounds when the plot has no
series or every series failed. -/
theorem bounds_skip_and_default (l : List (Option DataBounds)) :
    plotBounds l = plotBounds ((l.filterMap id).map some) ∧
    ((∀ x ∈ l, x = none) → plotBounds l = some defaultDataBounds) ∧
    (∀ (b : DataBounds) (bs : List DataBounds),
      l = some b :: bs.map some → plotBounds l = bs.foldlM union_bounds b) ∧
    (Plot.mk Axis.default Axis.default).pretty_bounds defaultDataBounds =
      Bounds.mk ⟨0, 1⟩ ⟨0, 1⟩ := by
  refine ⟨?_, ?_, ?_, rfl⟩
  · unfold plotBounds
    rw [plotBoundsAux_skip]
  · intro h
    have hnil : l.filterMap id = [] := by
      rw [List.filterMap_eq_nil_iff]
      intro a ha
      simpa using h a ha
    unfold plotBounds
    rw [plotBoundsAux_skip, hnil]
    rfl
  · rintro b bs rfl
    unfold plotBounds
    have : plotBoundsAux (some b :: bs.map some) none = plotBoundsAux (bs.map some) (some b) :=
      rfl
    rw [this, plotBoundsAux_somes]
    cases bs.foldlM union_bounds b <;> rfl

/-- Running a `FixedTicksIter` whose remaining budget is `fuel` produces the
arithmetic sequence `start + (current + i) * step` for `i < fuel`. -/
theorem fixedGo_formula (fuel : ℕ) : ∀ it : FixedTicksIter, it.count - it.current = fuel →
    fixedGo fuel it =
      (List.range fuel).map (fun i => it.start + ((it.current + i : ℕ) : ℝ) * it.step) := by
  induction fuel with
  | zero => intro it _; rfl
  | succ fuel ih =>
    intro it h
    have hlt : it.current < it.count := by omega
    have hnext : it.next =
        some (it.start + (it.current : ℝ) * it.step, { it with current := it.current + 1 }) := by
      simp [FixedTicksIter.next, Nat.not_le.mpr hlt]
    have hrec := ih { it with current := it.current + 1 } (by simp; omega)
    simp only [fixedGo, hnext]
    rw [hrec, List.range_succ_eq_map, List.map_cons, List.map_map]
    refine List.cons_eq_cons.mpr ⟨by push_cast; ring, ?_⟩
    refine List.map_congr_left ?_
    intro i _
    simp only [Function.comp]
    push_cast
    ring

/-- Claim C6: `FixedTicksIter::new(range, n)` emits exactly `n` evenly spaced
values `min + i * (size / (n - 1))`, none for `n = 0`, first `min` and last
`max` for `n ≥ 2`; the `Fixed` arm of `iter_ticks` runs it over the pretty
range; and the two concrete sequences from the source's unit test hold. -/
theorem fixed_ticks_spec (r : Range) (n : ℕ) (a : Axis) (dr : DataRange) (nc : ℕ) :
    (FixedTicksIter.new r n).toList =
      (List.range n).map (fun i : ℕ => r.min + (i : ℝ) * (r.size / ((n - 1 : ℕ) : ℝ))) ∧
    (FixedTicksIter.new r n).toList.length = n ∧
    (FixedTicksIter.new r 0).toList = [] ∧
    (2 ≤ n → (FixedTicksIter.new r n).toList.headI = r.min ∧
      (FixedTicksIter.new r n).toList.getLast? = some r.max) ∧
    (a.ticks = .Fixed n →
      a.iter_ticks dr nc = .Fixed (FixedTicksIter.new (a.pretty_range dr) n)) ∧
    (FixedTicksIter.new ⟨0, 1⟩ 5).toList = [0, 0.25, 0.5, 0.75, 1] ∧
    (FixedTicksIter.new ⟨0, 2⟩ 5).toList = [0, 0.5, 1, 1.5, 2] := by
  have hform : ∀ (rr : Range) (m : ℕ), (FixedTicksIter.new rr m).toList =
      (List.range m).map (fun i : ℕ => rr.min + (i : ℝ) * (rr.size / ((m - 1 : ℕ) : ℝ))) := by
    intro rr m
    have := fixedGo_formula m (FixedTicksIter.new rr m) (by simp [FixedTicksIter.new])
    simpa [FixedTicksIter.toList, FixedTicksIter.new] using this
  refine ⟨hform r n, ?_, ?_, ?_, ?_, ?_, ?_⟩
  · rw [hform]; simp
  · rw [hform]; simp
  · intro hn
    obtain ⟨m, rfl⟩ : ∃ m, n = m + 2 := ⟨n - 2, by omega⟩
    constructor
    · rw [hform, List.range_succ_eq_map]
      simp [List.headI]
    · have hidx : m + 2 - 1 < m + 2 := by omega
      rw [hform, List.getLast?_eq_getElem?]
      simp only [List.length_map, List.length_range]
      rw [List.getElem?_map, List.getElem?_range hidx, Option.map_some']
      have hm : (m + 2 - 1 : ℕ) = m + 1 := by omega
      rw [hm]
      have hne : ((m + 1 : ℕ) : ℝ) ≠ 0 := by positivity
      have hcancel : ((m + 1 : ℕ) : ℝ) * (r.size / ((m + 1 : ℕ) : ℝ)) = r.size := by
        field_simp
      congr 1
      rw [hcancel]
      simp [Range.size]
  · intro ht
    simp [Axis.iter_ticks, ht]
  · rw [hform]
    norm_num [List.range_succ, Range.size]
  · rw [hform]
    norm_num [List.range_succ, Range.size]

/-- Witness for C6: the endpoint and `iter_ticks` conjuncts at `n = 5` over
`[0, 1]` and an axis with `Ticks::Fixed 5`. -/
theorem fixed_ticks_spec_witness :
    (2 ≤ 5 ∧ (FixedTicksIter.new (Range.mk 0 1) 5).toList.headI = (Range.mk 0 1).min ∧
      (FixedTicksIter.new (Range.mk 0 1) 5).toList.getLast? = some (Range.mk 0 1).max) ∧
    (Axis.mk none .Linear none none (1 / 10) (.Fixed 5)).iter_ticks
        (.Continuous ⟨0, 1⟩ .Absolute false false) 10 =
      .Fixed (FixedTicksIter.new
        ((Axis.mk none .Linear none none (1 / 10) (.Fixed 5)).pretty_range
          (.Continuous ⟨0, 1⟩ .Absolute false false)) 5) :=
  ⟨⟨by norm_num,
    (fixed_ticks_spec (Range.mk 0 1) 5 (Axis.mk none .Linear none none (1 / 10) (.Fixed 5))
      (.Continuous ⟨0, 1⟩ .Absolute false false) 10).2.2.2.1 (by norm_num)⟩,
   (fixed_ticks_spec (Range.mk 0 1) 5 (Axis.mk none .Linear none none (1 / 10) (.Fixed 5))
      (.Continuous ⟨0, 1⟩ .Absolute false false) 10).2.2.2.2.1 rfl⟩

/-- Claim C9: for a logarithmic x axis, mapping a positive data value through
log10, then through the affine of `viewport_transform`, then through the
inverse affine, then through `10 ^ ·` recovers the value, provided the scaled
pretty bounds and the viewport have nonzero x size. -/
theorem log_scale_roundtrip (p : Plot) (db : DataBounds) (vp : Bounds) (v : ℝ)
    (_hscale : p.x.scale = .Logarithmic) (hv : 0 < v)
    (hsize : ((p.pretty_bounds db).x.map (fun t => p.x.scale.scale_value t)).size ≠ 0)
    (hvp : vp.x.size ≠ 0) :
    (10 : ℝ) ^ (((p.viewport_transform db vp).affine).invApplyX
      (((p.viewport_transform db vp).affine).applyX (Real.logb 10 v))) = v := by
  have hc0 : ((p.viewport_transform db vp).affine).c0 =
      vp.x.size / ((p.pretty_bounds db).x.map (fun t => p.x.scale.scale_value t)).size := rfl
  have hc0ne : ((p.viewport_transform db vp).affine).c0 ≠ 0 := by
    rw [hc0]
    exact div_ne_zero hvp hsize
  have hinv : ((p.viewport_transform db vp).affine).invApplyX
      (((p.viewport_transform db vp).affine).applyX (Real.logb 10 v)) = Real.logb 10 v := by
    unfold Affine.invApplyX Affine.applyX
    rw [add_sub_cancel_right]
    exact mul_div_cancel_left₀ _ hc0ne
  rw [hinv]
  exact Real.rpow_logb (by norm_num) (by norm_num) hv

/-- Witness for C9: a logarithmic x axis over data range `[1, 100]` (scaled to
`[0, 2]` in log space), viewport `[0, 800] × [600, 0]`, and data value `10`. -/
theorem log_scale_roundtrip_witness :
    (Plot.mk (Axis.mk none .Logarithmic none none (1 / 10) .Auto)
        (Axis.mk none .Linear none none (1 / 10) .Auto)).x.scale = .Logarithmic ∧
    (0 : ℝ) < 10 ∧
    (10 : ℝ) ^ ((((Plot.mk (Axis.mk none .Logarithmic none none (1 / 10) .Auto)
        (Axis.mk none .Linear none none (1 / 10) .Auto)).viewport_transform
        (DataBounds.mk (.Continuous ⟨1, 100⟩ .Absolute false false)
          (.Continuous ⟨0, 1⟩ .Absolute false false))
        (Bounds.mk ⟨0, 800⟩ ⟨600, 0⟩)).affine).invApplyX
      ((((Plot.mk (Axis.mk none .Logarithmic none none (1 / 10) .Auto)
        (Axis.mk none .Linear none none (1 / 10) .Auto)).viewport_transform
        (DataBounds.mk (.Continuous ⟨1, 100⟩ .Absolute false false)
          (.Continuous ⟨0, 1⟩ .Absolute false false))
        (Bounds.mk ⟨0, 800⟩ ⟨600, 0⟩)).affine).applyX (Real.logb 10 10))) = 10 := by
  refine ⟨rfl, by norm_num, ?_⟩
  apply log_scale_roundtrip
  · rfl
  · norm_num
  · show (Range.mk (Real.logb 10 1) (Real.logb 10 100)).size ≠ 0
    have h100 : 0 < Real.logb 10 100 := Real.logb_pos (by norm_num) (by norm_num)
    have hsz : (Range.mk (Real.logb 10 1) (Real.logb 10 100)).size = Real.logb 10 100 := by
      simp [Range.size, Real.logb_one]
    rw [hsz]
    exact ne_of_gt h100
  · show (800 : ℝ) - 0 ≠ 0
    norm_num

/-- The nice step is always positive: the snapped base is one of 1, 2, 2.5, 5,
10 and the decade factor `10^k` is positive. -/
theorem niceStep_pos (r : Range) (c : ℕ) : 0 < niceStep r c := by
  unfold niceStep niceBase
  split_ifs <;> positivity

/-- Characterization of the `n`-th emitted value of a `NiceTicksIter` with
positive step: the rounded `current + n * step`, as long as that value is below
`hi + step * 0.5`. -/
theorem emit_formula (n : ℕ) : ∀ it : NiceTicksIter, 0 < it.step →
    it.emit n = if it.current + n * it.step < it.hi + it.step * 0.5
      then some (roundTo it.precision (it.current + n * it.step)) else none := by
  induction n with
  | zero =>
    intro it hs
    by_cases h : it.current < it.hi + it.step * 0.5
    · simp [NiceTicksIter.emit, NiceTicksIter.next, h, roundTo]
    · simp [NiceTicksIter.emit, NiceTicksIter.next, h]
  | succ n ih =>
    intro it hs
    by_cases h : it.current < it.hi + it.step * 0.5
    · have hnext : it.next = some
          ((rustRound (it.current * (10 : ℝ) ^ it.precision) : ℝ) / (10 : ℝ) ^ it.precision,
            { it with current := it.current + it.step }) := by
        simp [NiceTicksIter.next, h]
      have hstep : it.emit (n + 1) =
          ({ it with current := it.current + it.step } : NiceTicksIter).emit n := by
        simp [NiceTicksIter.emit, hnext]
      rw [hstep, ih _ (by simpa using hs)]
      have he : it.current + it.step + (n : ℝ) * it.step =
          it.current + ((n + 1 : ℕ) : ℝ) * it.step := by
        push_cast
        ring
      simp only [he]
    · have hnext : it.next = none := by
        simp [NiceTicksIter.next, h]
      have hlhs : it.emit (n + 1) = none := by
        simp [NiceTicksIter.emit, hnext]
      rw [hlhs, if_neg]
      have hnn : 0 ≤ ((n + 1 : ℕ) : ℝ) * it.step := by positivity
      push_neg at h
      intro hcon
      linarith

/-- Claim C1: `nice_ticks` builds the iterator from the claimed step, bounds
and precision, reports that precision, and the `n`-th emitted value is
`lo + n * step` rounded to the reported precision, emitted exactly while it is
below `hi + step * 0.5`. -/
theorem nice_ticks_spec (r : Range) (c : ℕ) (_hc : 0 < c) :
    r.nice_ticks c = ⟨niceLo r c, niceStep r c, niceHi r c, nicePrec r c⟩ ∧
    (r.nice_ticks c).precision = nicePrec r c ∧
    ∀ n : ℕ, (r.nice_ticks c).emit n =
      if niceLo r c + n * niceStep r c < niceHi r c + niceStep r c * 0.5
      then some (roundTo (nicePrec r c) (niceLo r c + n * niceStep r c)) else none := by
  have hstruct : r.nice_ticks c = ⟨niceLo r c, niceStep r c, niceHi r c, nicePrec r c⟩ := rfl
  refine ⟨hstruct, by rw [hstruct], ?_⟩
  intro n
  rw [hstruct]
  exact emit_formula n ⟨niceLo r c, niceStep r c, niceHi r c, nicePrec r c⟩ (niceStep_pos r c)

/-- Witness for C1: over `[0, 10]` with 10 requested ticks the nice step is 2,
`lo = 0`, and the first emitted tick is `0`. -/
theorem nice_ticks_spec_witness :
    0 < 10 ∧ ((Range.mk 0 10).nice_ticks 10).emit 0 = some 0 := by
  have h := (nice_ticks_spec ⟨0, 10⟩ 10 (by norm_num)).2.2 0
  have hs0 : niceStep0 ⟨0, 10⟩ 10 = 1 := by
    show ((10 : ℝ) - 0) / (10 : ℕ) = 1
    norm_num
  have hk : niceK ⟨0, 10⟩ 10 = 0 := by
    rw [niceK, hs0]
    simp [Real.logb_one]
  have hbr : niceBaseRaw ⟨0, 10⟩ 10 = 1 := by
    rw [niceBaseRaw, hs0, hk]
    norm_num
  have hb : niceBase ⟨0, 10⟩ 10 = 2 := by
    rw [niceBase, hbr]
    norm_num
  have hstep : niceStep ⟨0, 10⟩ 10 = 2 := by
    rw [niceStep, hb, hk]
    norm_num
  have hlo : niceLo ⟨0, 10⟩ 10 = 0 := by
    rw [niceLo, hstep]
    show ((⌊(0 : ℝ) / 2⌋ : ℤ) : ℝ) * 2 = 0
    norm_num
  have hhi : niceHi ⟨0, 10⟩ 10 = 10 := by
    rw [niceHi, hstep]
    show ((⌈(10 : ℝ) / 2⌉ : ℤ) : ℝ) * 2 = 10
    norm_num
  have hp : nicePrec ⟨0, 10⟩ 10 = 4 := by
    rw [nicePrec, hk]
    omega
  rw [hlo, hstep, hhi, hp] at h
  rw [h, if_pos (by norm_num)]
  refine ⟨by norm_num, ?_⟩
  have : roundTo 4 ((0 : ℝ) + (0 : ℕ) * 2) = 0 := by
    norm_num [roundTo, rustRound]
  rw [this]

/-- Witness for C8: the all-failed list produces the default bounds, and a
single successful series is returned as-is. -/
theorem bounds_skip_and_default_witness :
    plotBounds [none, none] = some defaultDataBounds ∧
    plotBounds [some defaultDataBounds] = some defaultDataBounds := by
  constructor
  · exact (bounds_skip_and_default [none, none]).2.1 (by simp)
  · have h := (bounds_skip_and_default [some defaultDataBounds]).2.2.1 defaultDataBounds []
      (by simp)
    simpa using h

end Neilplot
